import Mathlib

/-
Verification of the input-classification / validation / invocation pipeline of
the Clustal Omega web application (src/app.py).

Strings are modelled as `List Char` (`Str`).  Python string primitives used by
the code (`str.strip`, `str.splitlines`, `str.split`, `shlex.split`, the
specific regexes) are embedded as executable Lean functions over `Str`.
External effects (HTTP fetches, the subprocess, the filesystem) are modelled
by oracle parameters and by explicit event traces.
-/

namespace ClustalApp

/-- Python-style strings: a list of characters. -/
abbrev Str := List Char

/-- Character data of a Lean string literal. -/
def lit (s : String) : Str := s.data

/-- The apostrophe character (U+0027), spelled numerically. -/
def squote : Char := Char.ofNat 39

/-- The backquote character (U+0060), spelled numerically. -/
def bquote : Char := Char.ofNat 96

/-- Line-boundary characters of Python `str.splitlines` (the ASCII/Latin-1
boundaries plus the Unicode line/paragraph separators). -/
def isLineBreak (c : Char) : Bool :=
  c = '\n' || c = '\r' || c = '\x0b' || c = '\x0c' ||
  c = '\x1c' || c = '\x1d' || c = '\x1e' || c = '\x85' ||
  c = Char.ofNat 0x2028 || c = Char.ofNat 0x2029

/-- Whitespace as recognised by Python `str.strip` / `str.split` / regex
`\s`: all line boundaries plus space, tab and the remaining Latin-1
whitespace.  (The rare Unicode spaces U+2000–U+200A etc. are omitted.) -/
def pySpace (c : Char) : Bool :=
  isLineBreak c || c = ' ' || c = '\t' || c = '\x1f' || c = '\xa0'

/-- `l.dropWhile`, kept as an abbreviation for readability in proofs. -/
def pylstrip (l : Str) : Str := l.dropWhile pySpace

/-- Python `str.strip()`: drop whitespace from both ends. -/
def pystrip (l : Str) : Str := ((l.dropWhile pySpace).reverse.dropWhile pySpace).reverse

/-- Worker for `splitlines`; `cur` holds the current line reversed, and
`afterCR` records that the previous character was a carriage return (so that
an immediately following newline is part of the same `\r\n` boundary). -/
def splitlinesGo : List Char → List Char → Bool → List (List Char)
  | [], cur, _ => if cur.isEmpty then [] else [cur.reverse]
  | c :: rest, cur, afterCR =>
    if afterCR && c = '\n' then splitlinesGo rest cur false
    else if c = '\r' then cur.reverse :: splitlinesGo rest [] true
    else if isLineBreak c then cur.reverse :: splitlinesGo rest [] false
    else splitlinesGo rest (c :: cur) false

/-- Python `str.splitlines()`. -/
def splitlines (s : Str) : List Str := splitlinesGo s [] false

/-- Worker for `pysplit`; `cur` holds the current token reversed. -/
def pysplitGo : List Char → List Char → List Str
  | [], cur => if cur.isEmpty then [] else [cur.reverse]
  | c :: rest, cur =>
    if pySpace c then
      if cur.isEmpty then pysplitGo rest [] else cur.reverse :: pysplitGo rest []
    else pysplitGo rest (c :: cur)

/-- Python `str.split()` (split on whitespace runs, no empty tokens). -/
def pysplit (s : Str) : List Str := pysplitGo s []

/-- Python `''.join(...)`. -/
def joinStr (xs : List Str) : Str := xs.flatten

/-- Insertion into a Python `dict` viewed as an insertion-ordered association
list: an existing key keeps its position but gets the new value; a new key is
appended at the end. -/
def dictInsert (k v : Str) : List (Str × Str) → List (Str × Str)
  | [] => [(k, v)]
  | (k', v') :: rest => if k' = k then (k, v) :: rest else (k', v') :: dictInsert k v rest

/-- Lookup in the association list modelling a Python `dict`. -/
def dictLookup (k : Str) : List (Str × Str) → Option Str
  | [] => none
  | (k', v') :: rest => if k' = k then some v' else dictLookup k rest

/-- `''.join(dict.fromkeys(found))`: de-duplicate characters keeping the first
occurrence; `seen` accumulates the characters already emitted. -/
def dedupChars (seen : Str) : Str → Str
  | [] => []
  | c :: rest => if seen.contains c then dedupChars seen rest else c :: dedupChars (c :: seen) rest

-- ── Input classifier (src/app.py, detect_input_type) ─────────────────────────

/-- The three classifications produced by `detect_input_type`. -/
inductive InputKind where
  | fasta
  | uniprot
  | pdb
deriving DecidableEq

/-- Case-insensitive `[A-Z0-9]` (regex classes under `re.IGNORECASE`). -/
def alnumU (c : Char) : Bool := c.isDigit || ('A' ≤ c.toUpper && c.toUpper ≤ 'Z')

/-- Case-insensitive `[A-Z]`. -/
def alphaU (c : Char) : Bool := 'A' ≤ c.toUpper && c.toUpper ≤ 'Z'

/-- Case-insensitive `[OPQ]`. -/
def opqU (c : Char) : Bool := c.toUpper = 'O' || c.toUpper = 'P' || c.toUpper = 'Q'

/-- Case-insensitive `[A-NR-Z]`. -/
def anrzU (c : Char) : Bool :=
  ('A' ≤ c.toUpper && c.toUpper ≤ 'N') || ('R' ≤ c.toUpper && c.toUpper ≤ 'Z')

/-- One group `[A-Z][A-Z0-9]{2}[0-9]` of the second UniProt alternative. -/
def uniprotGroup : Str → Bool
  | [x, y, z, w] => alphaU x && alnumU y && alnumU z && w.isDigit
  | _ => false

/-- The regex `^[OPQ][0-9][A-Z0-9]{3}[0-9]$|^[A-NR-Z][0-9]([A-Z][A-Z0-9]{2}[0-9]){1,2}$`
under `re.IGNORECASE`, applied with `re.match` to a whole whitespace-free token. -/
def uniprotMatch (t : Str) : Bool :=
  (match t with
   | [a, b, c, d, e, f] =>
     opqU a && b.isDigit && alnumU c && alnumU d && alnumU e && f.isDigit
   | _ => false)
  ||
  (match t with
   | a :: b :: rest =>
     anrzU a && b.isDigit &&
       (uniprotGroup rest ||
        (match rest with
         | [x1, y1, z1, w1, x2, y2, z2, w2] =>
           uniprotGroup [x1, y1, z1, w1] && uniprotGroup [x2, y2, z2, w2]
         | _ => false))
   | _ => false)

/-- The regex `^[0-9][A-Z0-9]{3}$` under `re.IGNORECASE`. -/
def pdbMatch : Str → Bool
  | [a, b, c, d] => a.isDigit && alnumU b && alnumU c && alnumU d
  | _ => false

/-- The broad fallback regex `^[A-Z0-9]{6,10}$` under `re.IGNORECASE`. -/
def broadMatch (t : Str) : Bool :=
  decide (6 ≤ t.length) && decide (t.length ≤ 10) && t.all alnumU

/-- The `lines` value of `detect_input_type`: strip the text, split into
lines, strip each line, keep the non-blank ones. -/
def linesOf (text : Str) : List Str :=
  ((splitlines (pystrip text)).map pystrip).filter (fun l => !l.isEmpty)

/-- Python `repr` of a token (single-quoted; modelled for tokens that do not
themselves contain a quote character). -/
def tokenRepr (t : Str) : Str := squote :: t ++ [squote]

/-- Python `repr` of the `tokens[:3]` list in the unrecognised-format error. -/
def tokensRepr (ts : List Str) : Str :=
  '[' :: List.intercalate (lit ", ") (ts.map tokenRepr) ++ [']']

/-- The unrecognised-format error message of `detect_input_type`. -/
def unrecognizedMsg (ts : List Str) : Str :=
  lit "Unrecognized input format. Could not identify as FASTA, UniProt IDs, or PDB IDs. Got: "
    ++ tokensRepr ts

/-- The token-classification stage of `detect_input_type` (lines 94–115):
count matches of the UniProt and PDB patterns over the tokens and decide. -/
def detectTokens (tokens : List Str) : Except Str InputKind :=
  if tokens.isEmpty then .error (lit "No identifiable input found.")
  else if 0 < tokens.countP uniprotMatch ∧
          tokens.countP pdbMatch ≤ tokens.countP uniprotMatch then .ok InputKind.uniprot
  else if 0 < tokens.countP pdbMatch then .ok InputKind.pdb
  else if tokens.countP broadMatch = tokens.length then .ok InputKind.uniprot
  else .error (unrecognizedMsg (tokens.take 3))

/-- The whitespace-separated tokens of all non-blank lines. -/
def tokensOf (text : Str) : List Str := (linesOf text).flatMap pysplit

/-- src/app.py, `detect_input_type` (lines 77–115).  The `[]` line-list case is
unreachable for non-blank input (the source indexes `lines[0]`); it is mapped
to the same error the source's own empty-token check produces. -/
def detect_input_type (text : Str) : Except Str InputKind :=
  if (pystrip text).isEmpty then .error (lit "Input is empty.")
  else
    match linesOf text with
    | [] => .error (lit "No identifiable input found.")
    | l0 :: ls =>
      if l0.head? = some '>' then .ok InputKind.fasta
      else detectTokens ((l0 :: ls).flatMap pysplit)

-- ── FASTA validator (src/app.py, SEQ_TYPE_CHARS / validate_fasta) ────────────

/-- The characters the `protein` entry of `SEQ_TYPE_CHARS` accepts (the regex
there matches everything outside this set). -/
def proteinChars : Str := lit "ACDEFGHIKLMNPQRSTVWYXBZUJacdefghiklmnpqrstvwyxbzuj*-"

/-- The characters the `dna` entry of `SEQ_TYPE_CHARS` accepts. -/
def dnaChars : Str := lit "ACGTURYSWKMBDHVNacgturyswkmbdhvn-"

/-- The characters the `rna` entry of `SEQ_TYPE_CHARS` accepts. -/
def rnaChars : Str := lit "ACGURYSWKMBDHVNacguryswkmbdhvn-"

/-- `SEQ_TYPE_CHARS.get(seq_type, SEQ_TYPE_CHARS['protein'])`, phrased
positively: is `c` a valid residue character for `seq_type`? -/
def seqTypeValidChar (st : Str) (c : Char) : Bool :=
  if st = lit "protein" then proteinChars.contains c
  else if st = lit "dna" then dnaChars.contains c
  else if st = lit "rna" then rnaChars.contains c
  else proteinChars.contains c

/-- `SEQ_TYPE_LABELS.get(seq_type, 'Protein')`. -/
def seqTypeLabel (st : Str) : Str :=
  if st = lit "protein" then lit "Protein"
  else if st = lit "dna" then lit "DNA"
  else if st = lit "rna" then lit "RNA"
  else lit "Protein"

/-- `SEQUENCE_TYPES.get(seq_type, 'Protein')`, the `--seqtype` argument. -/
def seqtypeArg (st : Str) : Str :=
  if st = lit "protein" then lit "Protein"
  else if st = lit "dna" then lit "DNA"
  else if st = lit "rna" then lit "RNA"
  else lit "Protein"

/-- Error `"Sequence '<id>' has no residues."`. -/
def noResiduesMsg (cid : Str) : Str :=
  lit "Sequence " ++ [squote] ++ cid ++ [squote] ++ lit " has no residues."

/-- Error `"Found a '>' header with no sequence ID."`. -/
def headerNoIdMsg : Str :=
  lit "Found a " ++ [squote, '>', squote] ++ lit " header with no sequence ID."

/-- Error `"Sequence data found before any FASTA header ('>...')."`. -/
def dataBeforeHeaderMsg : Str :=
  lit "Sequence data found before any FASTA header (" ++ [squote, '>', '.', '.', '.', squote]
    ++ lit ")."

/-- Error `"Invalid <label> characters in sequence '<id>': '<sample>'. ..."`. -/
def invalidCharsMsg (label cid sample : Str) : Str :=
  lit "Invalid " ++ label ++ lit " characters in sequence " ++ [squote] ++ cid ++ [squote]
    ++ lit ": " ++ [squote] ++ sample ++ [squote]
    ++ lit ". Check that the correct sequence type is selected."

/-- Error `"At least 2 sequences are required for alignment. Found: <n>."`. -/
def tooFewMsg (n : Nat) : Str :=
  lit "At least 2 sequences are required for alignment. Found: " ++ (toString n).data ++ lit "."

/-- The line loop of `validate_fasta` (src/app.py lines 127–160) together with
the closing of the final record (lines 156–160).  State: the remaining lines,
`current_id`, the cleaned fragments `current_seq`, and the `sequences` dict. -/
def collectGo (valid : Char → Bool) (label : Str) :
    List Str → Option Str → List Str → List (Str × Str) → Except Str (List (Str × Str))
  | [], cur_id, cur_seq, seqs =>
    match cur_id with
    | some cid =>
      let sq := joinStr cur_seq
      if sq.isEmpty then .error (noResiduesMsg cid)
      else .ok (dictInsert cid sq seqs)
    | none => .ok seqs
  | line :: rest, cur_id, cur_seq, seqs =>
    let l := pystrip line
    if l.isEmpty then collectGo valid label rest cur_id cur_seq seqs
    else if l.head? = some '>' then
      match cur_id with
      | some cid =>
        let sq := joinStr cur_seq
        if sq.isEmpty then .error (noResiduesMsg cid)
        else
          let nid := pystrip l.tail
          if nid.isEmpty then .error headerNoIdMsg
          else collectGo valid label rest (some nid) [] (dictInsert cid sq seqs)
      | none =>
        let nid := pystrip l.tail
        if nid.isEmpty then .error headerNoIdMsg
        else collectGo valid label rest (some nid) [] seqs
    else
      match cur_id with
      | none => .error dataBeforeHeaderMsg
      | some cid =>
        let cleaned := l.filter (fun c => !pySpace c)
        let found := cleaned.filter (fun c => !valid c)
        if found.isEmpty then collectGo valid label rest cur_id (cur_seq ++ [cleaned]) seqs
        else .error (invalidCharsMsg label cid ((dedupChars [] found).take 10))

/-- The record-collection phase of `validate_fasta` (everything before the
final minimum-count check on line 162). -/
def collectSequences (fasta_text st : Str) : Except Str (List (Str × Str)) :=
  collectGo (seqTypeValidChar st) (seqTypeLabel st) (splitlines fasta_text) none [] []

/-- src/app.py, `validate_fasta` (lines 118–165): collect the records, then
require at least 2 of them. -/
def validate_fasta (fasta_text st : Str) : Except Str (List (Str × Str)) :=
  match collectSequences fasta_text st with
  | .error e => .error e
  | .ok seqs => if seqs.length < 2 then .error (tooFewMsg seqs.length) else .ok seqs

-- ── Remote sequence fetcher (src/app.py, fetch_sequences_from_ids) ───────────

/-- The per-id fetch of `fetch_sequences_from_ids` is `fetch_uniprot` or
`fetch_pdb`, both of which talk to a remote HTTP service; the whole per-id
outcome is therefore a parameter `f` of the model (`.ok` = fetched FASTA text,
`.error` = the per-id error message). -/
def fetchLoop (f : Str → Except Str Str) :
    List Str → Str → List Str → Nat → Str × List Str × Nat
  | [], comb, errs, n => (comb, errs, n)
  | uid :: rest, comb, errs, n =>
    let u := pystrip uid
    if u.isEmpty then fetchLoop f rest comb errs n
    else
      match f u with
      | .error e => fetchLoop f rest comb (errs ++ [e]) n
      | .ok fa => fetchLoop f rest (comb ++ pystrip fa ++ ['\n']) errs (n + 1)

/-- The failure message used when `fetched < 2` (with the collected errors
appended when present). -/
def onlyCountMsg (n : Nat) (errs : List Str) : Str :=
  lit "Only " ++ (toString n).data ++ lit " sequence(s) fetched successfully. Need at least 2."
    ++ (if errs.isEmpty then [] else ['\n'] ++ lit "Errors:" ++ ['\n'] ++ List.intercalate ['\n'] errs)

/-- The failure message used when nothing at all was fetched. -/
def fetchNoneMsg (errs : List Str) : Str :=
  lit "Failed to fetch any sequences:" ++ ['\n'] ++ List.intercalate ['\n'] errs

/-- src/app.py, `fetch_sequences_from_ids` (lines 204–234).  On success the
second component is the warnings list (the source returns `None` instead of
the empty list; both are falsy to the caller and are modelled as `[]`). -/
def fetch_sequences_from_ids (f : Str → Except Str Str) (ids : List Str) :
    Except Str (Str × List Str) :=
  match fetchLoop f ids [] [] 0 with
  | (comb, errs, fetched) =>
    if ¬errs.isEmpty ∧ fetched = 0 then .error (fetchNoneMsg errs)
    else if fetched < 2 then .error (onlyCountMsg fetched errs)
    else .ok (comb, errs)

/-- The stripped non-blank ids the loop actually fetches. -/
def cleanIds (ids : List Str) : List Str :=
  (ids.map pystrip).filter (fun u => !u.isEmpty)

/-- Decide whether one per-id outcome is a success. -/
def fetchOk (r : Except Str Str) : Bool :=
  match r with
  | .ok _ => true
  | .error _ => false

/-- Number of successfully fetched sequences. -/
def fetchedCount (f : Str → Except Str Str) (ids : List Str) : Nat :=
  (cleanIds ids).countP (fun u => fetchOk (f u))

/-- The per-id error messages, in id order. -/
def fetchErrors (f : Str → Except Str Str) (ids : List Str) : List Str :=
  (cleanIds ids).filterMap (fun u =>
    match f u with
    | .error e => some e
    | .ok _ => none)

/-- The accumulated FASTA text (each fetched body stripped, plus a newline). -/
def fetchCombined (f : Str → Except Str Str) (ids : List Str) : Str :=
  joinStr ((cleanIds ids).filterMap (fun u =>
    match f u with
    | .ok fa => some (pystrip fa ++ ['\n'])
    | .error _ => none))

/-- The `fetch_uniprot` 404 message `"UniProt ID '<uid>' not found."`. -/
def uniprotNotFoundMsg (uid : Str) : Str :=
  lit "UniProt ID " ++ [squote] ++ uid ++ [squote] ++ lit " not found."

/-- Number of FASTA header lines in a text (how many sequences it carries). -/
def headerCount (s : Str) : Nat :=
  (splitlines s).countP (fun l => l.head? = some '>')

/-- A concrete remote-service behaviour for the 3-id scenario of C2: two ids
resolve, `P99999` is a 404. -/
def fetchOracle3 : Str → Except Str Str := fun uid =>
  if uid = lit "P11111" then .ok (lit ">sp|P11111|ONE\nMKVLAT\n")
  else if uid = lit "P99999" then .error (uniprotNotFoundMsg (lit "P99999"))
  else .ok (lit ">sp|P33333|TWO\nMKLT\n")

/-- The id list for the 3-id scenario of C2. -/
def ids3 : List Str := [lit "P11111", lit "P99999", lit "P33333"]

-- ── shlex.split model (POSIX mode, whitespace_split=True) ────────────────────

/-- The `shlex` whitespace set (space, tab, carriage return, newline). -/
def shlexWS (c : Char) : Bool := c = ' ' || c = '\t' || c = '\r' || c = '\n'

/-- Lexer modes of `shlex.split`: outside quotes, inside single quotes,
inside double quotes, and the two pending-escape states (after a backslash
outside quotes / inside double quotes). -/
inductive ShMode where
  | norm
  | single
  | double
  | escNorm
  | escDouble
deriving DecidableEq

/-- Worker for `shlexSplit`.  `tok = none` means no token is in progress
(`some []` is an empty but quoted token, which `shlex` does emit).  An escape
outside quotes takes the next character literally; inside double quotes a
backslash escapes only `"` and `\`; single quotes have no escapes.  EOF inside
a quote raises `No closing quotation`; EOF right after a backslash raises
`No escaped character`. -/
def shlexGo : List Char → ShMode → Option Str → List Str → Except Str (List Str)
  | [], .norm, tok, acc => .ok (acc ++ tok.toList)
  | [], .single, _, _ => .error (lit "No closing quotation")
  | [], .double, _, _ => .error (lit "No closing quotation")
  | [], .escNorm, _, _ => .error (lit "No escaped character")
  | [], .escDouble, _, _ => .error (lit "No escaped character")
  | c :: rest, .norm, tok, acc =>
    if shlexWS c then
      match tok with
      | some t => shlexGo rest .norm none (acc ++ [t])
      | none => shlexGo rest .norm none acc
    else if c = squote then shlexGo rest .single (some (tok.getD [])) acc
    else if c = '"' then shlexGo rest .double (some (tok.getD [])) acc
    else if c = '\\' then shlexGo rest .escNorm tok acc
    else shlexGo rest .norm (some (tok.getD [] ++ [c])) acc
  | c :: rest, .single, tok, acc =>
    if c = squote then shlexGo rest .norm tok acc
    else shlexGo rest .single (some (tok.getD [] ++ [c])) acc
  | c :: rest, .double, tok, acc =>
    if c = '"' then shlexGo rest .norm tok acc
    else if c = '\\' then shlexGo rest .escDouble tok acc
    else shlexGo rest .double (some (tok.getD [] ++ [c])) acc
  | c :: rest, .escNorm, tok, acc => shlexGo rest .norm (some (tok.getD [] ++ [c])) acc
  | c :: rest, .escDouble, tok, acc =>
    if c = '"' ∨ c = '\\' then shlexGo rest .double (some (tok.getD [] ++ [c])) acc
    else shlexGo rest .double (some (tok.getD [] ++ ['\\', c])) acc

/-- Python `shlex.split` (as used by `run_clustalo`): `.error` is the message
of the raised `ValueError`. -/
def shlexSplit (s : Str) : Except Str (List Str) := shlexGo s .norm none []

-- ── ClustalOmega invoker (src/app.py, run_clustalo) ──────────────────────────

/-- The characters `run_clustalo` refuses outright in `extra_opts`
(`re.search(r'[;&|`$<>]', ...)`, written here with the backquote spelled
numerically). -/
def unsafeChars : Str := [';', '&', '|', bquote, '$', '<', '>']

/-- The extra-options handling of `run_clustalo` (lines 283–294): empty input
contributes no arguments; otherwise the unsafe-character check runs first and
then `shlex.split`. -/
def parseExtraOpts (extra_opts : Str) : Except Str (List Str) :=
  if (pystrip extra_opts).isEmpty then .ok []
  else
    let safe_opts := pystrip extra_opts
    if safe_opts.any (fun c => unsafeChars.contains c) then
      .error (lit "Extra options contain unsafe characters.")
    else
      match shlexSplit safe_opts with
      | .ok parsed => .ok parsed
      | .error e => .error (lit "Invalid extra options: " ++ e)

/-- `CLUSTALO_PATH` (environment override not modelled; the default). -/
def CLUSTALO_PATH : Str := lit "clustalo"

/-- `FORMAT_EXTENSIONS.get(out_format, 'aln')`. -/
def formatExt (fmt : Str) : Str :=
  if fmt = lit "clustal" then lit "aln"
  else if fmt = lit "fasta" then lit "fasta"
  else if fmt = lit "msf" then lit "msf"
  else if fmt = lit "phylip" then lit "phy"
  else if fmt = lit "selex" then lit "slx"
  else if fmt = lit "stockholm" then lit "sto"
  else if fmt = lit "vienna" then lit "vienna"
  else lit "aln"

/-- The temporary input artifact path `uploads/input_<job>.fasta`. -/
def inputPath (job : Str) : Str := lit "uploads/input_" ++ job ++ lit ".fasta"

/-- The output artifact path `results/result_<job>.<ext>`. -/
def outputPath (job fmt : Str) : Str :=
  lit "results/result_" ++ job ++ ['.'] ++ formatExt fmt

/-- The fixed part of the clustalo command line (lines 270–280). -/
def baseCmd (job fmt st : Str) (iterations : Nat) : List Str :=
  [CLUSTALO_PATH, lit "-i", inputPath job, lit "-o", outputPath job fmt,
   lit "--outfmt", fmt, lit "--seqtype", seqtypeArg st, lit "--force"]
  ++ (if 0 < iterations then [lit "--iter", (toString iterations).data] else [])

/-- Filesystem / process effects of `run_clustalo`, in order of occurrence. -/
inductive Event where
  | writeInput (path text : Str)
  | spawn (cmd : List Str)
  | removeInput (path : Str)
deriving DecidableEq

/-- Is an event the removal of the temporary input artifact? -/
def isRemoveEvent : Event → Bool
  | .removeInput _ => true
  | _ => false

/-- Is an event the subprocess invocation? -/
def isSpawnEvent : Event → Bool
  | .spawn _ => true
  | _ => false

/-- Outcome of the `subprocess.run` call, supplied as an oracle: a normal
completion (return code, captured stdout/stderr, whether the output file
exists afterwards and its text), a `TimeoutExpired`, or a `FileNotFoundError`
for a missing executable. -/
inductive ProcOutcome where
  | completed (returncode : Int) (stdout stderr : Str) (outputExists : Bool) (outputText : Str)
  | timedOut
  | notFound
deriving DecidableEq

/-- `result.stderr.strip() or result.stdout.strip()`. -/
def errOut (so se : Str) : Str :=
  if (pystrip se).isEmpty then pystrip so else pystrip se

/-- Error `"ClustalOmega error (code <rc>):\n<err>"`. -/
def clustaloErrMsg (rc : Int) (so se : Str) : Str :=
  lit "ClustalOmega error (code " ++ (toString rc).data ++ lit "):" ++ ['\n'] ++ errOut so se

/-- The timeout error of `run_clustalo`. -/
def timeoutMsg : Str :=
  lit "ClustalOmega timed out after 120 seconds. Your input may be too large."

/-- The missing-executable error of `run_clustalo`. -/
def clustaloMissingMsg : Str :=
  lit "ClustalOmega executable not found at " ++ [squote] ++ CLUSTALO_PATH ++ [squote]
    ++ lit ". Please ensure it is installed and in PATH."

/-- src/app.py, `run_clustalo` (lines 253–327), as a pure function of the
subprocess outcome, returning the result `(output_text, result_path)` or the
error, paired with the trace of effects.  The input file is written first; if
the extra options are rejected the function returns before any subprocess
runs.  `os.remove(input_path)` happens only when `subprocess.run` returns
normally (its failure is swallowed by the source, so only the attempt is
traced); the exception paths return without it. -/
def run_clustalo (proc : ProcOutcome) (job fasta_text fmt st extra_opts : Str)
    (iterations : Nat) : Except Str (Str × Str) × List Event :=
  match parseExtraOpts extra_opts with
  | .error e => (.error e, [Event.writeInput (inputPath job) fasta_text])
  | .ok extra =>
    let cmd := baseCmd job fmt st iterations ++ extra
    let evs := [Event.writeInput (inputPath job) fasta_text, Event.spawn cmd]
    match proc with
    | .timedOut => (.error timeoutMsg, evs)
    | .notFound => (.error clustaloMissingMsg, evs)
    | .completed rc so se outEx outTxt =>
      let evs := evs ++ [Event.removeInput (inputPath job)]
      if rc ≠ 0 then (.error (clustaloErrMsg rc so se), evs)
      else if !outEx then (.error (lit "ClustalOmega ran but produced no output file."), evs)
      else (.ok (outTxt, outputPath job fmt), evs)

-- ── Response statistics (src/app.py, align, lines 430–440) ───────────────────

/-- Python `min` of a non-empty list (`0` on `[]`, which the route cannot
reach: validation guarantees at least 2 sequences). -/
def listMin : List Nat → Nat
  | [] => 0
  | x :: xs => xs.foldl Nat.min x

/-- Python `max` of a non-empty list (`0` on `[]`, unreachable as for
`listMin`). -/
def listMax : List Nat → Nat
  | [] => 0
  | x :: xs => xs.foldl Nat.max x

/-- Python `round(num/den)` on the exact rational value: round half to even
(the source divides two machine integers as floats; the float value is exact
for all realistic sequence counts and lengths). -/
def pyRound (num den : Nat) : Nat :=
  let q := num / den
  let r := num % den
  if 2 * r < den then q
  else if den < 2 * r then q + 1
  else if q % 2 = 0 then q else q + 1

/-- `OUTPUT_FORMATS.get(out_format, out_format)`. -/
def outputFormatLabel (fmt : Str) : Str :=
  if fmt = lit "clustal" then lit "Clustal (.aln)"
  else if fmt = lit "fasta" then lit "FASTA (.fasta)"
  else if fmt = lit "msf" then lit "MSF (.msf)"
  else if fmt = lit "phylip" then lit "PHYLIP (.phy)"
  else if fmt = lit "selex" then lit "SELEX (.slx)"
  else if fmt = lit "stockholm" then lit "Stockholm (.sto)"
  else if fmt = lit "vienna" then lit "Vienna (.vienna)"
  else fmt

/-- `os.path.basename`. -/
def basename (p : Str) : Str := (p.reverse.takeWhile (fun c => c ≠ '/')).reverse

/-- The `stats` object assembled by the `align` route. -/
structure AlignStats where
  sequences : Nat
  min_length : Nat
  max_length : Nat
  avg_length : Nat
  format : Str
  seq_type : Str
  result_file : Str
deriving DecidableEq

/-- src/app.py lines 430–440: statistics over the lengths of the validated
residue strings. -/
def buildStats (seqs : List (Str × Str)) (fmt st result_path : Str) : AlignStats :=
  let lengths := seqs.map (fun p => p.2.length)
  { sequences := seqs.length
    min_length := listMin lengths
    max_length := listMax lengths
    avg_length := pyRound lengths.sum lengths.length
    format := outputFormatLabel fmt
    seq_type := seqTypeLabel st
    result_file := basename result_path }

-- ── Artifact download (src/app.py, download, lines 454–463) ──────────────────

/-- Lowercase hex digit, the class `[a-f0-9]`. -/
def isLowerHex (c : Char) : Bool := c.isDigit || ('a' ≤ c && c ≤ 'f')

/-- Word character, the class `\w` (ASCII model). -/
def isWordChar (c : Char) : Bool :=
  c.isDigit || ('A' ≤ c && c ≤ 'Z') || ('a' ≤ c && c ≤ 'z') || c = '_'

/-- Modelled from the spec: a filename of the shape
`result_<8 lowercase hex chars>.<ext>` with a non-empty word-character
extension, covering the whole string. -/
def downloadNameSpec (f : Str) : Bool :=
  f.take 7 = lit "result_" &&
  ((f.drop 7).take 8).length = 8 &&
  ((f.drop 7).take 8).all isLowerHex &&
  (match (f.drop 7).drop 8 with
   | '.' :: ext => !ext.isEmpty && ext.all isWordChar
   | _ => false)

/-- `re.match(r'^result_[a-f0-9]{8}\.\w+$', filename)`: in Python `$` also
matches just before a newline that ends the string, so the pattern accepts the
exact shape optionally followed by one trailing newline. -/
def downloadNameRe (f : Str) : Bool :=
  downloadNameSpec f ||
    (match f.getLast? with
     | some c => c = '\n' && downloadNameSpec f.dropLast
     | none => false)

/-- Result of the download route. -/
inductive DlResult where
  | forbidden
  | notFound
  | sendFile (path : Str)
deriving DecidableEq

/-- `os.path.join(RESULTS_FOLDER, filename)`. -/
def resultsJoin (filename : Str) : Str := lit "results/" ++ filename

/-- src/app.py, `download` (lines 454–463), with the filesystem supplied as
the `fileExists` oracle. -/
def download (fileExists : Str → Bool) (filename : Str) : DlResult :=
  if ¬downloadNameRe filename then .forbidden
  else if ¬fileExists (resultsJoin filename) then .notFound
  else .sendFile (resultsJoin filename)

-- ── Constructions used to state the duplicate-identifier claim ───────────────

/-- The FASTA text block of one record: `>` + id + newline + residues +
newline. -/
def recordChunk (p : Str × Str) : Str := '>' :: p.1 ++ '\n' :: p.2 ++ ['\n']

/-- A FASTA text listing each record in order. -/
def mkFasta (records : List (Str × Str)) : Str := records.flatMap recordChunk

/-- The records folded into the `sequences` dict in order: exactly what the
validator's parse loop produces on `mkFasta records`. -/
def foldRecords (records : List (Str × Str)) : List (Str × Str) :=
  records.foldl (fun d p => dictInsert p.1 p.2 d) []

/-- Cleanliness of one record for the duplicate-identifier theorem: the id is
non-blank and whitespace-free, the residues are non-empty, whitespace-free,
alphabet-valid for `st`, and do not open a header. -/
abbrev CleanRecord (st : Str) (p : Str × Str) : Prop :=
  p.1 ≠ [] ∧ (∀ c ∈ p.1, pySpace c = false) ∧
  p.2 ≠ [] ∧ (∀ c ∈ p.2, pySpace c = false ∧ seqTypeValidChar st c = true) ∧
  p.2.head? ≠ some '>'

-- ── Helper lemmas on the string primitives ───────────────────────────────────

theorem dropWhile_eq_self_of (p : Char → Bool) (l : Str) (h : ∀ c ∈ l, p c = false) :
    l.dropWhile p = l := by
  cases l with
  | nil => rfl
  | cons x xs => simp [List.dropWhile, h x (by simp)]

theorem mem_dropWhile_of (p : Char → Bool) (l : Str) (c : Char)
    (hc : p c = false) (h : c ∈ l) : c ∈ l.dropWhile p := by
  induction l with
  | nil => cases h
  | cons x xs ih =>
    by_cases hx : p x
    · simp only [List.dropWhile, hx]
      rcases List.mem_cons.1 h with rfl | hmem
      · exact absurd hx (by simp [hc])
      · exact ih hmem
    · simpa [List.dropWhile, hx] using h

theorem pystrip_eq_self (l : Str) (h : ∀ c ∈ l, pySpace c = false) : pystrip l = l := by
  unfold pystrip
  rw [dropWhile_eq_self_of _ _ h,
      dropWhile_eq_self_of _ _ (fun c hc => h c (List.mem_reverse.1 hc)),
      List.reverse_reverse]

theorem mem_pystrip (l : Str) (c : Char) (hc : pySpace c = false) (h : c ∈ l) :
    c ∈ pystrip l := by
  unfold pystrip
  rw [List.mem_reverse]
  exact mem_dropWhile_of _ _ _ hc (List.mem_reverse.2 (mem_dropWhile_of _ _ _ hc h))

theorem pystrip_ne_nil (l : Str) (c : Char) (hc : pySpace c = false) (h : c ∈ l) :
    pystrip l ≠ [] :=
  List.ne_nil_of_mem (mem_pystrip l c hc h)

theorem linesOf_of_strip_nil (text : Str) (h : pystrip text = []) : linesOf text = [] := by
  simp [linesOf, h, splitlines, splitlinesGo]

-- ── C7: empty input and FASTA-first-line classification ──────────────────────

/-- C7: `detect_input_type` reports the empty-input error exactly on
empty/whitespace-only text, and classifies as FASTA whenever the first
non-blank (stripped) line starts with `>`, regardless of the rest. -/
theorem detect_empty_and_fasta (text : Str) :
    ((pystrip text).isEmpty = true → detect_input_type text = .error (lit "Input is empty."))
    ∧ (∀ l0 ls, linesOf text = l0 :: ls → l0.head? = some '>' →
        detect_input_type text = .ok InputKind.fasta) := by
  refine ⟨fun h => by simp [detect_input_type, h], fun l0 ls hlines hhd => ?_⟩
  have hne : (pystrip text).isEmpty = false := by
    by_contra hx
    have hemp : (pystrip text).isEmpty = true := by
      cases hxx : (pystrip text).isEmpty <;> simp_all
    rw [linesOf_of_strip_nil text (List.isEmpty_iff.1 hemp)] at hlines
    cases hlines
  unfold detect_input_type
  rw [hne, hlines]
  simp [hhd]

/-- Witness for C7: a whitespace-only input and a FASTA-looking input. -/
theorem detect_empty_and_fasta_witness :
    detect_input_type (lit "  \n\t ") = .error (lit "Input is empty.")
    ∧ detect_input_type (lit ">abc\n!! not ids !!") = .ok InputKind.fasta :=
  ⟨(detect_empty_and_fasta (lit "  \n\t ")).1 (by decide),
   (detect_empty_and_fasta (lit ">abc\n!! not ids !!")).2 (lit ">abc") [lit "!! not ids !!"]
     (by decide) (by decide)⟩

-- ── C4: identifier-token classification ──────────────────────────────────────

/-- C4: on non-FASTA non-empty input, classification follows the pattern-match
counts over all whitespace-separated tokens: UniProt when UniProt matches are
positive and not outnumbered by PDB matches, else PDB when PDB matches are
positive, else UniProt when every token fits the broad 6–10 alphanumeric
shape, else the unrecognised-format error naming up to 3 tokens; `P12345` is
UniProt, `1ABC` is PDB, and ties favour UniProt. -/
theorem detect_id_classification (text : Str) :
    (∀ l0 ls, linesOf text = l0 :: ls → l0.head? ≠ some '>' →
      detect_input_type text = detectTokens (tokensOf text))
    ∧ (∀ tokens : List Str,
        (0 < tokens.countP uniprotMatch →
          tokens.countP pdbMatch ≤ tokens.countP uniprotMatch →
          detectTokens tokens = .ok InputKind.uniprot)
        ∧ (¬(0 < tokens.countP uniprotMatch ∧
              tokens.countP pdbMatch ≤ tokens.countP uniprotMatch) →
            0 < tokens.countP pdbMatch → detectTokens tokens = .ok InputKind.pdb)
        ∧ (tokens ≠ [] → tokens.countP uniprotMatch = 0 → tokens.countP pdbMatch = 0 →
            tokens.countP broadMatch = tokens.length →
            detectTokens tokens = .ok InputKind.uniprot)
        ∧ (tokens.countP uniprotMatch = 0 → tokens.countP pdbMatch = 0 →
            tokens.countP broadMatch ≠ tokens.length →
            detectTokens tokens = .error (unrecognizedMsg (tokens.take 3))))
    ∧ uniprotMatch (lit "P12345") = true
    ∧ pdbMatch (lit "1ABC") = true
    ∧ detect_input_type (lit "P12345") = .ok InputKind.uniprot
    ∧ detect_input_type (lit "1ABC") = .ok InputKind.pdb
    ∧ detect_input_type (lit "P12345 1ABC") = .ok InputKind.uniprot
    ∧ detect_input_type (lit "!!") = .error (unrecognizedMsg [lit "!!"]) := by
  refine ⟨fun l0 ls hlines hhd => ?_, fun tokens => ⟨?_, ?_, ?_, ?_⟩, rfl, rfl, rfl, rfl, rfl, rfl⟩
  · have hne : (pystrip text).isEmpty = false := by
      by_contra hx
      have hemp : (pystrip text).isEmpty = true := by
        cases hxx : (pystrip text).isEmpty <;> simp_all
      rw [linesOf_of_strip_nil text (List.isEmpty_iff.1 hemp)] at hlines
      cases hlines
    unfold detect_input_type
    rw [hne, hlines, tokensOf, hlines]
    simp [hhd]
  · intro hu hp
    have hne : tokens.isEmpty = false := by
      cases tokens with
      | nil => simp at hu
      | cons a l => rfl
    rw [detectTokens, hne]
    simp only [Bool.false_eq_true, if_false]
    rw [if_pos ⟨hu, hp⟩]
  · intro hnot hp
    have hne : tokens.isEmpty = false := by
      cases tokens with
      | nil => simp at hp
      | cons a l => rfl
    rw [detectTokens, hne]
    simp only [Bool.false_eq_true, if_false]
    rw [if_neg hnot, if_pos hp]
  · intro hne0 hu hp hbroad
    have hne : tokens.isEmpty = false := by
      cases tokens with
      | nil => exact absurd rfl hne0
      | cons a l => rfl
    rw [detectTokens, hne]
    simp only [Bool.false_eq_true, if_false]
    rw [if_neg (by simp [hu]), if_neg (by simp [hp]), if_pos hbroad]
  · intro hu hp hbroad
    have hne0 : tokens ≠ [] := by
      intro h
      subst h
      simp at hbroad
    have hne : tokens.isEmpty = false := by
      cases tokens with
      | nil => exact absurd rfl hne0
      | cons a l => rfl
    rw [detectTokens, hne]
    simp only [Bool.false_eq_true, if_false]
    rw [if_neg (by simp [hu]), if_neg (by simp [hp]), if_neg hbroad]

/-- Witness for C4: discharge the hypotheses at a mixed UniProt/PDB token
list and at the concrete classification of `1ABC`. -/
theorem detect_id_classification_witness :
    detect_input_type (lit "Q00001 2XYZ") = detectTokens (tokensOf (lit "Q00001 2XYZ"))
    ∧ detectTokens [lit "Q00001", lit "2XYZ"] = .ok InputKind.uniprot :=
  ⟨(detect_id_classification (lit "Q00001 2XYZ")).1 (lit "Q00001 2XYZ") [] (by decide) (by decide),
   ((detect_id_classification (lit "x")).2.1 [lit "Q00001", lit "2XYZ"]).1 (by decide) (by decide)⟩

-- ── C9: download filename guard ──────────────────────────────────────────────

theorem downloadNameRe_iff (f : Str) :
    downloadNameRe f = true ↔
      (downloadNameSpec f = true ∨
        (f.getLast? = some '\n' ∧ downloadNameSpec f.dropLast = true)) := by
  unfold downloadNameRe
  cases h : f.getLast? with
  | none => simp [h]
  | some c => by_cases hc : c = '\n' <;> simp [h, hc]

/-- C9 (amended): the download route rejects with access denied exactly when
neither the filename itself nor the filename with one trailing newline removed
has the shape `result_<8 lowercase hex>.<ext>` (the `$` anchor of the source's
regex also matches before a terminal newline); a filename of that exact shape
is served when present and yields not-found when absent. -/
theorem download_pattern_amended (fe : Str → Bool) (f : Str) :
    (download fe f = DlResult.forbidden ↔
      ¬(downloadNameSpec f = true ∨
        (f.getLast? = some '\n' ∧ downloadNameSpec f.dropLast = true)))
    ∧ (downloadNameSpec f = true → fe (resultsJoin f) = false →
        download fe f = DlResult.notFound)
    ∧ (downloadNameSpec f = true → fe (resultsJoin f) = true →
        download fe f = DlResult.sendFile (resultsJoin f)) := by
  refine ⟨⟨fun h => ?_, fun h => ?_⟩, fun hs hfe => ?_, fun hs hfe => ?_⟩
  · rw [← downloadNameRe_iff]
    intro hre
    unfold download at h
    rw [if_neg (by simp [hre])] at h
    split at h <;> cases h
  · rw [← downloadNameRe_iff] at h
    have hre : downloadNameRe f = false := by
      cases hx : downloadNameRe f
      · rfl
      · exact absurd hx h
    unfold download
    rw [if_pos (by simp [hre])]
  · have hre : downloadNameRe f = true := downloadNameRe_iff f |>.2 (Or.inl hs)
    unfold download
    rw [if_neg (by simp [hre]), if_pos (by simp [hfe])]
  · have hre : downloadNameRe f = true := downloadNameRe_iff f |>.2 (Or.inl hs)
    unfold download
    rw [if_neg (by simp [hre]), if_neg (by simp [hfe])]

/-- Counterexample for C9 as stated: `result_0123abcd.aln` followed by a
newline does not match the stated pattern, yet the route does not reject it
(it reaches the existence check and yields not-found). -/
theorem download_pattern_cex :
    downloadNameSpec (lit "result_0123abcd.aln" ++ ['\n']) = false
    ∧ download (fun _ => false) (lit "result_0123abcd.aln" ++ ['\n']) = DlResult.notFound :=
  ⟨by decide, by decide⟩

/-- Witness for C9 (amended) at a well-formed filename. -/
theorem download_pattern_amended_witness :
    downloadNameSpec (lit "result_0123abcd.aln") = true
    ∧ download (fun _ => true) (lit "result_0123abcd.aln")
        = DlResult.sendFile (resultsJoin (lit "result_0123abcd.aln")) :=
  ⟨by decide,
   (download_pattern_amended (fun _ => true) (lit "result_0123abcd.aln")).2.2 (by decide) rfl⟩

-- ── C3 / C6: the invoker's option guard and cleanup behaviour ────────────────

theorem run_clustalo_of_parse_error (proc : ProcOutcome) (job fasta fmt st xo : Str)
    (it : Nat) (m : Str) (h : parseExtraOpts xo = .error m) :
    run_clustalo proc job fasta fmt st xo it
      = (.error m, [Event.writeInput (inputPath job) fasta]) := by
  unfold run_clustalo
  rw [h]

/-- C3: extra options containing any of the characters `; & | backtick $ < >`
make `run_clustalo` fail with the unsafe-characters error before any
subprocess is spawned; options that pass that check but fail shell-word
tokenization fail with the distinct tokenization error, likewise with no
subprocess spawned. -/
theorem run_clustalo_opts_guard (proc : ProcOutcome) (job fasta fmt st xo : Str)
    (it : Nat) :
    (∀ c, c ∈ unsafeChars → c ∈ xo →
      (run_clustalo proc job fasta fmt st xo it).1
          = .error (lit "Extra options contain unsafe characters.")
      ∧ ∀ cmd, Event.spawn cmd ∉ (run_clustalo proc job fasta fmt st xo it).2)
    ∧ (∀ e, (∀ c ∈ pystrip xo, unsafeChars.contains c = false) →
        shlexSplit (pystrip xo) = .error e →
        (run_clustalo proc job fasta fmt st xo it).1
            = .error (lit "Invalid extra options: " ++ e)
        ∧ (∀ cmd, Event.spawn cmd ∉ (run_clustalo proc job fasta fmt st xo it).2)
        ∧ lit "Invalid extra options: " ++ e
            ≠ lit "Extra options contain unsafe characters.") := by
  constructor
  · intro c hcu hcx
    have hns : pySpace c = false := by
      have hall : ∀ c ∈ unsafeChars, pySpace c = false := by decide
      exact hall c hcu
    have hmem : c ∈ pystrip xo := mem_pystrip xo c hns hcx
    have hne : (pystrip xo).isEmpty = false := by
      cases hx : pystrip xo with
      | nil => rw [hx] at hmem; cases hmem
      | cons a l => rfl
    have hany : (pystrip xo).any (fun c => unsafeChars.contains c) = true :=
      List.any_eq_true.2 ⟨c, hmem, by simpa using hcu⟩
    have hparse : parseExtraOpts xo = .error (lit "Extra options contain unsafe characters.") := by
      unfold parseExtraOpts
      rw [hne]
      simp only [Bool.false_eq_true, if_false]
      rw [if_pos hany]
    rw [run_clustalo_of_parse_error proc job fasta fmt st xo it _ hparse]
    exact ⟨rfl, fun cmd => by simp⟩
  · intro e hclean hshlex
    have hne : (pystrip xo).isEmpty = false := by
      cases hx : pystrip xo with
      | nil => rw [hx] at hshlex; cases hshlex
      | cons a l => rfl
    have hany : (pystrip xo).any (fun c => unsafeChars.contains c) = false := by
      rw [List.any_eq_false]
      intro c hc hx
      rw [hclean c hc] at hx
      cases hx
    have hparse : parseExtraOpts xo = .error (lit "Invalid extra options: " ++ e) := by
      unfold parseExtraOpts
      rw [hne]
      simp only [Bool.false_eq_true, if_false]
      rw [if_neg (show ¬((pystrip xo).any (fun c => unsafeChars.contains c) = true) from by
            rw [hany]; exact fun h => nomatch h),
          hshlex]
    rw [run_clustalo_of_parse_error proc job fasta fmt st xo it _ hparse]
    refine ⟨rfl, fun cmd => by simp, fun hcontra => ?_⟩
    have := congrArg List.head? hcontra
    simp [lit] at this

/-- Witness for C3: a `;`-laden option string and an unclosed quote. -/
theorem run_clustalo_opts_guard_witness :
    (run_clustalo ProcOutcome.timedOut (lit "j") (lit "f") (lit "clustal") (lit "protein")
        (lit "--iter 3; rm -rf x") 0).1
      = .error (lit "Extra options contain unsafe characters.")
    ∧ (run_clustalo ProcOutcome.timedOut (lit "j") (lit "f") (lit "clustal") (lit "protein")
        (lit "--foo " ++ [squote] ++ lit "bar") 0).1
      = .error (lit "Invalid extra options: No closing quotation") :=
  ⟨((run_clustalo_opts_guard ProcOutcome.timedOut (lit "j") (lit "f") (lit "clustal")
      (lit "protein") (lit "--iter 3; rm -rf x") 0).1 ';' (by decide) (by decide)).1,
   (((run_clustalo_opts_guard ProcOutcome.timedOut (lit "j") (lit "f") (lit "clustal")
      (lit "protein") (lit "--foo " ++ [squote] ++ lit "bar") 0).2
      (lit "No closing quotation") (by decide) (by rfl)).1)⟩

/-- C6 (amended): the temporary input artifact is removed on every path on
which `subprocess.run` returns (success, non-zero exit, and missing output
file); on the timeout and missing-executable paths — where the call raises —
the except branches return without removing it. -/
theorem run_clustalo_cleanup_amended (proc : ProcOutcome) (job fasta fmt st xo : Str)
    (it : Nat) :
    (∀ rc so se outEx outTxt opts, proc = ProcOutcome.completed rc so se outEx outTxt →
      parseExtraOpts xo = .ok opts →
      Event.removeInput (inputPath job) ∈ (run_clustalo proc job fasta fmt st xo it).2)
    ∧ (proc = ProcOutcome.timedOut ∨ proc = ProcOutcome.notFound →
      (run_clustalo proc job fasta fmt st xo it).2.filter isRemoveEvent = []) := by
  constructor
  · rintro rc so se outEx outTxt opts rfl hparse
    unfold run_clustalo
    rw [hparse]
    simp only []
    split_ifs <;> simp
  · rintro (rfl | rfl) <;>
      (unfold run_clustalo
       cases hp : parseExtraOpts xo <;> simp [isRemoveEvent])

/-- Counterexample for C6 as stated: on the timeout path the subprocess was
spawned, the timeout error is reported, and no removal of the temporary input
artifact occurs. -/
theorem run_clustalo_cleanup_cex :
    (run_clustalo ProcOutcome.timedOut (lit "deadbeef") (lit ">a\nMK\n>b\nML\n")
        (lit "clustal") (lit "protein") [] 0).1 = .error timeoutMsg
    ∧ ((run_clustalo ProcOutcome.timedOut (lit "deadbeef") (lit ">a\nMK\n>b\nML\n")
        (lit "clustal") (lit "protein") [] 0).2.countP isSpawnEvent = 1)
    ∧ ((run_clustalo ProcOutcome.timedOut (lit "deadbeef") (lit ">a\nMK\n>b\nML\n")
        (lit "clustal") (lit "protein") [] 0).2.filter isRemoveEvent = []) :=
  ⟨rfl, rfl, rfl⟩

/-- Witness for C6 (amended): a completed run with non-zero exit still removes
the input artifact. -/
theorem run_clustalo_cleanup_amended_witness :
    Event.removeInput (inputPath (lit "deadbeef")) ∈
      (run_clustalo (ProcOutcome.completed 1 [] (lit "boom") false []) (lit "deadbeef")
        (lit ">a\nMK\n>b\nML\n") (lit "clustal") (lit "protein") [] 0).2 :=
  (run_clustalo_cleanup_amended (ProcOutcome.completed 1 [] (lit "boom") false [])
      (lit "deadbeef") (lit ">a\nMK\n>b\nML\n") (lit "clustal") (lit "protein") [] 0).1
    1 [] (lit "boom") false [] [] rfl rfl

-- ── C2: fetcher aggregation ──────────────────────────────────────────────────

theorem fetchLoop_eq (f : Str → Except Str Str) (ids : List Str) :
    ∀ comb errs n, fetchLoop f ids comb errs n
      = (comb ++ fetchCombined f ids, errs ++ fetchErrors f ids, n + fetchedCount f ids) := by
  induction ids with
  | nil =>
    intro comb errs n
    simp [fetchLoop, fetchCombined, fetchErrors, fetchedCount, cleanIds, joinStr]
  | cons uid rest ih =>
    intro comb errs n
    unfold fetchLoop
    by_cases hu : (pystrip uid).isEmpty
    · rw [if_pos hu, ih]
      simp [fetchCombined, fetchErrors, fetchedCount, cleanIds, hu]
    · have hu' : (pystrip uid).isEmpty = false := Bool.eq_false_iff.2 hu
      rw [if_neg hu]
      cases hf : f (pystrip uid) with
      | error e =>
        show fetchLoop f rest comb (errs ++ [e]) n = _
        rw [ih]
        simp [fetchCombined, fetchErrors, fetchedCount, fetchOk, cleanIds, joinStr, hu', hf,
          List.countP_cons]
      | ok fa =>
        show fetchLoop f rest (comb ++ pystrip fa ++ ['\n']) errs (n + 1) = _
        rw [ih]
        simp [fetchCombined, fetchErrors, fetchedCount, fetchOk, cleanIds, joinStr, hu', hf,
          List.countP_cons, List.append_assoc]
        try omega

/-- `fetch_sequences_from_ids` in terms of the closed per-id decomposition. -/
theorem fetch_sequences_eq (f : Str → Except Str Str) (ids : List Str) :
    fetch_sequences_from_ids f ids =
      (if ¬(fetchErrors f ids).isEmpty ∧ fetchedCount f ids = 0
       then .error (fetchNoneMsg (fetchErrors f ids))
       else if fetchedCount f ids < 2
       then .error (onlyCountMsg (fetchedCount f ids) (fetchErrors f ids))
       else .ok (fetchCombined f ids, fetchErrors f ids)) := by
  unfold fetch_sequences_from_ids
  rw [fetchLoop_eq]
  simp

/-- C2: over any ordered id list (with the remote service abstracted by `f`),
the fetcher fails whenever fewer than 2 sequences were fetched — with the
concatenation of all per-id errors when nothing was fetched and errors exist,
and with the count message (carrying the collected errors) when exactly one
was fetched — and succeeds with the combined FASTA text plus the per-id
errors as warnings (possibly `[]`) when at least 2 were fetched; in the
concrete 3-id scenario with one 404, it succeeds with 2 sequences and exactly
1 warning mentioning `not found`. -/
theorem fetch_sequences_spec (f : Str → Except Str Str) (ids : List Str) :
    (fetchedCount f ids ≤ 1 → ∃ e, fetch_sequences_from_ids f ids = .error e)
    ∧ (fetchedCount f ids = 0 → fetchErrors f ids ≠ [] →
        fetch_sequences_from_ids f ids = .error (fetchNoneMsg (fetchErrors f ids)))
    ∧ (fetchedCount f ids = 1 →
        fetch_sequences_from_ids f ids = .error (onlyCountMsg 1 (fetchErrors f ids)))
    ∧ (2 ≤ fetchedCount f ids →
        fetch_sequences_from_ids f ids = .ok (fetchCombined f ids, fetchErrors f ids))
    ∧ fetch_sequences_from_ids fetchOracle3 ids3
        = .ok (fetchCombined fetchOracle3 ids3, [uniprotNotFoundMsg (lit "P99999")])
    ∧ headerCount (fetchCombined fetchOracle3 ids3) = 2
    ∧ (fetchErrors fetchOracle3 ids3).length = 1
    ∧ lit "not found" <:+: uniprotNotFoundMsg (lit "P99999") := by
  refine ⟨fun hle => ?_, fun h0 herr => ?_, fun h1 => ?_, fun h2 => ?_, by rfl, by rfl, by rfl,
    ⟨lit "UniProt ID " ++ [squote] ++ lit "P99999" ++ [squote] ++ [' '], lit ".", by decide⟩⟩
  · rw [fetch_sequences_eq]
    by_cases hc : ¬(fetchErrors f ids).isEmpty ∧ fetchedCount f ids = 0
    · rw [if_pos hc]; exact ⟨_, rfl⟩
    · rw [if_neg hc, if_pos (by omega)]; exact ⟨_, rfl⟩
  · rw [fetch_sequences_eq, if_pos ⟨by simp [herr], h0⟩]
  · rw [fetch_sequences_eq, if_neg (by simp [h1]), if_pos (by omega), h1]
  · rw [fetch_sequences_eq, if_neg (by omega), if_neg (by omega)]

/-- Witness for C2: the 3-id scenario discharges the 2-or-more hypothesis. -/
theorem fetch_sequences_spec_witness :
    2 ≤ fetchedCount fetchOracle3 ids3
    ∧ fetch_sequences_from_ids fetchOracle3 ids3
        = .ok (fetchCombined fetchOracle3 ids3, fetchErrors fetchOracle3 ids3) :=
  ⟨by decide, (fetch_sequences_spec fetchOracle3 ids3).2.2.2.1 (by decide)⟩

-- ── Validator invariants (shared by the claims on validate_fasta) ────────────

theorem mem_dictInsert (k v : Str) (d : List (Str × Str)) (q : Str × Str)
    (h : q ∈ dictInsert k v d) : q = (k, v) ∨ q ∈ d := by
  induction d with
  | nil => simpa [dictInsert] using h
  | cons p rest ih =>
    rcases p with ⟨k', v'⟩
    by_cases hk : k' = k
    · subst hk
      rw [dictInsert, if_pos rfl] at h
      rcases List.mem_cons.1 h with rfl | hm
      · exact Or.inl rfl
      · exact Or.inr (List.mem_cons.2 (Or.inr hm))
    · rw [dictInsert, if_neg hk] at h
      rcases List.mem_cons.1 h with rfl | hm
      · exact Or.inr (List.mem_cons.2 (Or.inl rfl))
      · rcases ih hm with hq | hq
        · exact Or.inl hq
        · exact Or.inr (List.mem_cons.2 (Or.inr hq))

theorem dictInsert_pairwise (k v : Str) (d : List (Str × Str))
    (h : d.Pairwise (fun a b => a.1 ≠ b.1)) :
    (dictInsert k v d).Pairwise (fun a b => a.1 ≠ b.1) := by
  induction d with
  | nil => simp [dictInsert]
  | cons p rest ih =>
    rcases p with ⟨k', v'⟩
    rw [List.pairwise_cons] at h
    by_cases hk : k' = k
    · subst hk
      rw [dictInsert, if_pos rfl, List.pairwise_cons]
      exact ⟨h.1, h.2⟩
    · rw [dictInsert, if_neg hk, List.pairwise_cons]
      refine ⟨fun q hq => ?_, ih h.2⟩
      rcases mem_dictInsert k v rest q hq with rfl | hm
      · exact hk
      · exact h.1 q hm

theorem dictInsert_forall (P : Str × Str → Prop) (k v : Str) (d : List (Str × Str))
    (hd : ∀ q ∈ d, P q) (hkv : P (k, v)) : ∀ q ∈ dictInsert k v d, P q := by
  intro q hq
  rcases mem_dictInsert k v d q hq with rfl | hm
  · exact hkv
  · exact hd q hm

theorem joinStr_all (p : Char → Bool) (xs : List Str)
    (h : ∀ fr ∈ xs, fr.all p = true) : (joinStr xs).all p = true := by
  induction xs with
  | nil => rfl
  | cons x rest ih =>
    rw [joinStr, List.flatten_cons, List.all_append, Bool.and_eq_true]
    exact ⟨h x (by simp), ih fun fr hf => h fr (by simp [hf])⟩

theorem isEmpty_false_ne_nil (l : Str) (h : l.isEmpty = false) : l ≠ [] := by
  cases l with
  | nil => cases h
  | cons a t => exact fun hx => nomatch hx

theorem collectGo_ok_invariant (valid : Char → Bool) (label : Str) :
    ∀ (lines : List Str) (cid : Option Str) (cur : List Str) (seqs out : List (Str × Str)),
      seqs.Pairwise (fun a b => a.1 ≠ b.1) →
      (∀ q ∈ seqs, q.1 ≠ [] ∧ q.2 ≠ [] ∧ q.2.all valid = true) →
      (∀ s, cid = some s → s ≠ []) →
      (∀ fr ∈ cur, fr.all valid = true) →
      collectGo valid label lines cid cur seqs = .ok out →
      out.Pairwise (fun a b => a.1 ≠ b.1) ∧
        (∀ q ∈ out, q.1 ≠ [] ∧ q.2 ≠ [] ∧ q.2.all valid = true) := by
  intro lines
  induction lines with
  | nil =>
    intro cid cur seqs out hpw hall hcid hcur hrun
    cases cid with
    | none =>
      simp only [collectGo] at hrun
      cases hrun
      exact ⟨hpw, hall⟩
    | some s =>
      simp only [collectGo] at hrun
      split at hrun
      · cases hrun
      · rename_i hjoin
        cases hrun
        exact ⟨dictInsert_pairwise _ _ _ hpw,
          dictInsert_forall _ _ _ _ hall
            ⟨hcid s rfl, isEmpty_false_ne_nil _ (Bool.eq_false_iff.2 hjoin),
              joinStr_all valid cur hcur⟩⟩
  | cons line rest ih =>
    intro cid cur seqs out hpw hall hcid hcur hrun
    cases cid with
    | some c =>
      simp only [collectGo] at hrun
      split at hrun
      · exact ih _ _ _ _ hpw hall hcid hcur hrun
      · split at hrun
        · -- header line: close the current record, open the new one
          split at hrun
          · cases hrun
          · split at hrun
            · cases hrun
            · rename_i hjoin hnid
              refine ih _ _ _ _ (dictInsert_pairwise _ _ _ hpw)
                (dictInsert_forall _ _ _ _ hall
                  ⟨hcid c rfl, isEmpty_false_ne_nil _ (Bool.eq_false_iff.2 hjoin),
                    joinStr_all valid cur hcur⟩)
                (fun s hs => by
                  injection hs with hs
                  exact hs ▸ isEmpty_false_ne_nil _ (Bool.eq_false_iff.2 hnid))
                (fun fr hf => absurd hf (List.not_mem_nil fr)) hrun
        · -- residue line
          split at hrun
          · rename_i hfound
            refine ih _ _ _ _ hpw hall hcid (fun fr hf => ?_) hrun
            rcases List.mem_append.1 hf with hf | hf
            · exact hcur fr hf
            · rcases List.mem_singleton.1 hf with rfl
              rw [List.all_eq_true]
              intro c' hc'
              by_contra hval
              have hmem : c' ∈ ((pystrip line).filter (fun ch => !pySpace ch)).filter
                  (fun ch => !valid ch) := by
                rw [List.mem_filter]
                exact ⟨hc', by simp [hval]⟩
              rw [List.isEmpty_iff.1 hfound] at hmem
              cases hmem
          · cases hrun
    | none =>
      simp only [collectGo] at hrun
      split at hrun
      · exact ih _ _ _ _ hpw hall hcid hcur hrun
      · split at hrun
        · split at hrun
          · cases hrun
          · rename_i hnid
            refine ih _ _ _ _ hpw hall
              (fun s hs => by
                injection hs with hs
                exact hs ▸ isEmpty_false_ne_nil _ (Bool.eq_false_iff.2 hnid))
              (fun fr hf => absurd hf (List.not_mem_nil fr)) hrun
        · cases hrun

-- ── C1: minimum count, uniqueness, non-emptiness ─────────────────────────────

/-- C1: `validate_fasta` succeeds only with at least 2 records carrying
pairwise-distinct non-empty ids and non-empty residues; when the collection
phase yields 0 or 1 records the function fails with the observed count; and a
record that accumulated zero residues fails naming its id (whether the record
is closed by the end of input or by the next header). -/
theorem validate_fasta_requires_two (text st : Str) :
    (∀ seqs, validate_fasta text st = .ok seqs →
      2 ≤ seqs.length ∧ seqs.Pairwise (fun a b => a.1 ≠ b.1) ∧
        ∀ q ∈ seqs, q.1 ≠ [] ∧ q.2 ≠ [])
    ∧ (∀ seqs, collectSequences text st = .ok seqs → seqs.length < 2 →
        validate_fasta text st = .error (tooFewMsg seqs.length))
    ∧ (∀ cid cur seqs, joinStr cur = [] →
        collectGo (seqTypeValidChar st) (seqTypeLabel st) [] (some cid) cur seqs
          = .error (noResiduesMsg cid))
    ∧ (∀ line rest cid cur seqs, joinStr cur = [] → (pystrip line).head? = some '>' →
        collectGo (seqTypeValidChar st) (seqTypeLabel st) (line :: rest) (some cid) cur seqs
          = .error (noResiduesMsg cid)) := by
  refine ⟨fun seqs hrun => ?_, fun seqs hcol hlen => ?_, fun cid cur seqs hj => ?_,
    fun line rest cid cur seqs hj hhd => ?_⟩
  · cases hc : collectSequences text st with
    | error e => rw [validate_fasta, hc] at hrun; cases hrun
    | ok s =>
      have hval : validate_fasta text st
          = if s.length < 2 then .error (tooFewMsg s.length) else .ok s := by
        rw [validate_fasta, hc]
      by_cases hl : s.length < 2
      · rw [hval, if_pos hl] at hrun; cases hrun
      · rw [hval, if_neg hl] at hrun
        injection hrun with h
        subst h
        have hinv := collectGo_ok_invariant (seqTypeValidChar st) (seqTypeLabel st)
          (splitlines text) none [] [] s List.Pairwise.nil
          (fun q hq => absurd hq (List.not_mem_nil q)) (fun s hs => Option.noConfusion hs)
          (fun fr hf => absurd hf (List.not_mem_nil fr)) hc
        exact ⟨by omega, hinv.1, fun q hq => ⟨(hinv.2 q hq).1, (hinv.2 q hq).2.1⟩⟩
  · have hval : validate_fasta text st
        = if seqs.length < 2 then .error (tooFewMsg seqs.length) else .ok seqs := by
      rw [validate_fasta, hcol]
    rw [hval, if_pos hlen]
  · simp [collectGo, hj]
  · have hne : (pystrip line).isEmpty = false := by
      cases hx : pystrip line with
      | nil => rw [hx] at hhd; cases hhd
      | cons a t => rfl
    simp [collectGo, hne, hhd, hj]

/-- Witness for C1: a valid two-record input, a one-record input, and a
record closed with no residues. -/
theorem validate_fasta_requires_two_witness :
    (2 ≤ ([(lit "a", lit "MK"), (lit "b", lit "ML")] : List (Str × Str)).length
      ∧ ([(lit "a", lit "MK"), (lit "b", lit "ML")] : List (Str × Str)).Pairwise
          (fun a b => a.1 ≠ b.1)
      ∧ ∀ q ∈ ([(lit "a", lit "MK"), (lit "b", lit "ML")] : List (Str × Str)),
          q.1 ≠ [] ∧ q.2 ≠ [])
    ∧ validate_fasta (lit ">a\nMK\n") (lit "protein") = .error (tooFewMsg 1)
    ∧ collectGo (seqTypeValidChar (lit "protein")) (seqTypeLabel (lit "protein"))
        [] (some (lit "empty")) [] [] = .error (noResiduesMsg (lit "empty")) :=
  ⟨(validate_fasta_requires_two (lit ">a\nMK\n>b\nML\n") (lit "protein")).1
      [(lit "a", lit "MK"), (lit "b", lit "ML")] rfl,
   (validate_fasta_requires_two (lit ">a\nMK\n") (lit "protein")).2.1
      [(lit "a", lit "MK")] rfl (by decide),
   (validate_fasta_requires_two (lit "x") (lit "protein")).2.2.1 (lit "empty") [] [] rfl⟩

-- ── C5: alphabet containment and invalid-character failure ───────────────────

/-- C5: residues of a successful validation contain only characters of the
selected type's alphabet (so the stored strings are concatenations, with
whitespace stripped and case preserved, of permitted characters only); a
non-header line containing characters outside the alphabet fails naming the
current record's id and the first-seen de-duplicated offending characters
capped at 10; and the rna alphabet admits `U`/`u` but not `T`/`t` while dna
admits `T`, every type admitting the gap `-`. -/
theorem validate_fasta_alphabet (text st : Str) :
    (∀ seqs, validate_fasta text st = .ok seqs →
      ∀ q ∈ seqs, q.2.all (seqTypeValidChar st) = true)
    ∧ (∀ line rest cid cur seqs,
        (pystrip line).isEmpty = false → (pystrip line).head? ≠ some '>' →
        ((pystrip line).filter (fun c => !pySpace c)).filter
            (fun c => !seqTypeValidChar st c) ≠ [] →
        collectGo (seqTypeValidChar st) (seqTypeLabel st) (line :: rest) (some cid) cur seqs
          = .error (invalidCharsMsg (seqTypeLabel st) cid
              ((dedupChars [] (((pystrip line).filter (fun c => !pySpace c)).filter
                  (fun c => !seqTypeValidChar st c))).take 10)))
    ∧ seqTypeValidChar (lit "rna") 'U' = true ∧ seqTypeValidChar (lit "rna") 'u' = true
    ∧ seqTypeValidChar (lit "rna") 'T' = false ∧ seqTypeValidChar (lit "rna") 't' = false
    ∧ seqTypeValidChar (lit "dna") 'T' = true
    ∧ seqTypeValidChar st '-' = true := by
  refine ⟨fun seqs hrun => ?_, fun line rest cid cur seqs hne hhd hfound => ?_,
    by decide, by decide, by decide, by decide, by decide, ?_⟩
  · cases hc : collectSequences text st with
    | error e => rw [validate_fasta, hc] at hrun; cases hrun
    | ok s =>
      have hval : validate_fasta text st
          = if s.length < 2 then .error (tooFewMsg s.length) else .ok s := by
        rw [validate_fasta, hc]
      by_cases hl : s.length < 2
      · rw [hval, if_pos hl] at hrun; cases hrun
      · rw [hval, if_neg hl] at hrun
        injection hrun with h
        subst h
        have hinv := collectGo_ok_invariant (seqTypeValidChar st) (seqTypeLabel st)
          (splitlines text) none [] [] s List.Pairwise.nil
          (fun q hq => absurd hq (List.not_mem_nil q)) (fun s hs => Option.noConfusion hs)
          (fun fr hf => absurd hf (List.not_mem_nil fr)) hc
        exact fun q hq => (hinv.2 q hq).2.2
  · have hfound' : (((pystrip line).filter (fun c => !pySpace c)).filter
        (fun c => !seqTypeValidChar st c)).isEmpty = false := by
      cases hx : ((pystrip line).filter (fun c => !pySpace c)).filter
          (fun c => !seqTypeValidChar st c) with
      | nil => exact absurd hx hfound
      | cons a t => rfl
    simp only [collectGo]
    rw [if_neg (show ¬((pystrip line).isEmpty = true) from by
          rw [hne]; exact fun h => nomatch h),
        if_neg hhd,
        if_neg (show ¬((((pystrip line).filter (fun c => !pySpace c)).filter
            (fun c => !seqTypeValidChar st c)).isEmpty = true) from by
          rw [hfound']; exact fun h => nomatch h)]
  · unfold seqTypeValidChar
    split
    · decide
    · split
      · decide
      · split
        · decide
        · decide

/-- Witness for C5: a successful rna validation and a failing dna line. -/
theorem validate_fasta_alphabet_witness :
    (∀ q ∈ ([(lit "r1", lit "ACGU-"), (lit "r2", lit "acgu")] : List (Str × Str)),
      q.2.all (seqTypeValidChar (lit "rna")) = true)
    ∧ collectGo (seqTypeValidChar (lit "dna")) (seqTypeLabel (lit "dna"))
        [lit "ACX1GTX", lit "ACGT"] (some (lit "s1")) [] []
      = .error (invalidCharsMsg (lit "DNA") (lit "s1") (lit "X1")) :=
  ⟨(validate_fasta_alphabet (lit ">r1\nACGU-\n>r2\nacgu\n") (lit "rna")).1
      [(lit "r1", lit "ACGU-"), (lit "r2", lit "acgu")] rfl,
   (validate_fasta_alphabet (lit "x") (lit "dna")).2.1
      (lit "ACX1GTX") [lit "ACGT"] (lit "s1") [] [] (by decide) (by decide) (by decide)⟩

-- ── C8: response statistics ──────────────────────────────────────────────────

theorem validate_fasta_ok_two (text st : Str) (seqs : List (Str × Str))
    (h : validate_fasta text st = .ok seqs) : 2 ≤ seqs.length := by
  cases hc : collectSequences text st with
  | error e => rw [validate_fasta, hc] at h; cases h
  | ok s =>
    have hval : validate_fasta text st
        = if s.length < 2 then .error (tooFewMsg s.length) else .ok s := by
      rw [validate_fasta, hc]
    by_cases hl : s.length < 2
    · rw [hval, if_pos hl] at h; cases h
    · rw [hval, if_neg hl] at h
      injection h with h
      subst h
      omega

theorem foldl_min_le_init (xs : List Nat) : ∀ a, xs.foldl Nat.min a ≤ a := by
  induction xs with
  | nil => intro a; exact Nat.le_refl a
  | cons x rest ih =>
    intro a
    exact Nat.le_trans (ih (Nat.min a x)) (Nat.min_le_left a x)

theorem foldl_min_le_mem (xs : List Nat) : ∀ a x, x ∈ xs → xs.foldl Nat.min a ≤ x := by
  induction xs with
  | nil => intro a x hx; cases hx
  | cons y rest ih =>
    intro a x hx
    rcases List.mem_cons.1 hx with rfl | hx
    · exact Nat.le_trans (foldl_min_le_init rest (Nat.min a x)) (Nat.min_le_right a x)
    · exact ih (Nat.min a y) x hx

theorem foldl_min_mem (xs : List Nat) : ∀ a, xs.foldl Nat.min a = a ∨ xs.foldl Nat.min a ∈ xs := by
  induction xs with
  | nil => intro a; exact Or.inl rfl
  | cons x rest ih =>
    intro a
    rcases ih (Nat.min a x) with hm | hm
    · have hmm : Nat.min a x = a ∨ Nat.min a x = x := by
        by_cases hax : a ≤ x
        · exact Or.inl (Nat.min_eq_left hax)
        · exact Or.inr (Nat.min_eq_right (Nat.le_of_not_le hax))
      rcases hmm with hmm | hmm
      · rw [List.foldl_cons, hm, hmm]
        exact Or.inl rfl
      · rw [List.foldl_cons, hm, hmm]
        exact Or.inr (List.mem_cons_self x rest)
    · exact Or.inr (List.mem_cons.2 (Or.inr (by simpa using hm)))

theorem foldl_max_init_le (xs : List Nat) : ∀ a, a ≤ xs.foldl Nat.max a := by
  induction xs with
  | nil => intro a; exact Nat.le_refl a
  | cons x rest ih =>
    intro a
    exact Nat.le_trans (Nat.le_max_left a x) (ih (Nat.max a x))

theorem foldl_max_mem_le (xs : List Nat) : ∀ a x, x ∈ xs → x ≤ xs.foldl Nat.max a := by
  induction xs with
  | nil => intro a x hx; cases hx
  | cons y rest ih =>
    intro a x hx
    rcases List.mem_cons.1 hx with rfl | hx
    · exact Nat.le_trans (Nat.le_max_right a x) (foldl_max_init_le rest (Nat.max a x))
    · exact ih (Nat.max a y) x hx

theorem foldl_max_mem (xs : List Nat) : ∀ a, xs.foldl Nat.max a = a ∨ xs.foldl Nat.max a ∈ xs := by
  induction xs with
  | nil => intro a; exact Or.inl rfl
  | cons x rest ih =>
    intro a
    rcases ih (Nat.max a x) with hm | hm
    · have hmm : Nat.max a x = a ∨ Nat.max a x = x := by
        by_cases hax : a ≤ x
        · exact Or.inr (Nat.max_eq_right hax)
        · exact Or.inl (Nat.max_eq_left (Nat.le_of_not_le hax))
      rcases hmm with hmm | hmm
      · rw [List.foldl_cons, hm, hmm]
        exact Or.inl rfl
      · rw [List.foldl_cons, hm, hmm]
        exact Or.inr (List.mem_cons_self x rest)
    · exact Or.inr (List.mem_cons.2 (Or.inr (by simpa using hm)))

theorem listMin_le (xs : List Nat) (x : Nat) (hx : x ∈ xs) : listMin xs ≤ x := by
  cases xs with
  | nil => cases hx
  | cons a rest =>
    rcases List.mem_cons.1 hx with rfl | hx
    · exact foldl_min_le_init rest x
    · exact foldl_min_le_mem rest a x hx

theorem le_listMax (xs : List Nat) (x : Nat) (hx : x ∈ xs) : x ≤ listMax xs := by
  cases xs with
  | nil => cases hx
  | cons a rest =>
    rcases List.mem_cons.1 hx with rfl | hx
    · exact foldl_max_init_le rest x
    · exact foldl_max_mem_le rest a x hx

theorem listMin_mem (xs : List Nat) (hx : xs ≠ []) : listMin xs ∈ xs := by
  cases xs with
  | nil => exact absurd rfl hx
  | cons a rest =>
    rcases foldl_min_mem rest a with hm | hm
    · rw [listMin, hm]; exact List.mem_cons_self a rest
    · exact List.mem_cons.2 (Or.inr (by simpa [listMin] using hm))

theorem listMax_mem (xs : List Nat) (hx : xs ≠ []) : listMax xs ∈ xs := by
  cases xs with
  | nil => exact absurd rfl hx
  | cons a rest =>
    rcases foldl_max_mem rest a with hm | hm
    · rw [listMax, hm]; exact List.mem_cons_self a rest
    · exact List.mem_cons.2 (Or.inr (by simpa [listMax] using hm))

theorem pyRound_nearest (num den : Nat) (h : 0 < den) :
    2 * Nat.dist (pyRound num den * den) num ≤ den := by
  simp only [pyRound]
  have hqr : den * (num / den) + num % den = num := Nat.div_add_mod num den
  have hr : num % den < den := Nat.mod_lt _ h
  rw [Nat.mul_comm den (num / den)] at hqr
  split_ifs with h1 h2 h3
  · simp [Nat.dist]; omega
  · have hexp : (num / den + 1) * den = num / den * den + den := by ring
    simp [Nat.dist]; omega
  · simp [Nat.dist]; omega
  · have hexp : (num / den + 1) * den = num / den * den + den := by ring
    simp [Nat.dist]; omega

/-- C8: on a successful validation the statistics report the validated record
count, the minimum and maximum residue lengths (both attained), and an
average within half a unit of the exact mean (the source's `round`); in the
two-length-3-sequence scenario the stats are sequences=2, min=3, max=3,
avg=3. -/
theorem align_stats_spec (text st fmt rp : Str) (seqs : List (Str × Str))
    (h : validate_fasta text st = .ok seqs) :
    (buildStats seqs fmt st rp).sequences = seqs.length
    ∧ (∀ l ∈ seqs.map (fun p => p.2.length),
        (buildStats seqs fmt st rp).min_length ≤ l
        ∧ l ≤ (buildStats seqs fmt st rp).max_length)
    ∧ (buildStats seqs fmt st rp).min_length ∈ seqs.map (fun p => p.2.length)
    ∧ (buildStats seqs fmt st rp).max_length ∈ seqs.map (fun p => p.2.length)
    ∧ 2 * Nat.dist ((buildStats seqs fmt st rp).avg_length * seqs.length)
        (seqs.map (fun p => p.2.length)).sum ≤ seqs.length
    ∧ buildStats [(lit "seq1", lit "MKV"), (lit "seq2", lit "MKL")] (lit "fasta")
        (lit "protein") (lit "results/result_0a1b2c3d.fasta")
      = { sequences := 2, min_length := 3, max_length := 3, avg_length := 3,
          format := lit "FASTA (.fasta)", seq_type := lit "Protein",
          result_file := lit "result_0a1b2c3d.fasta" }
    ∧ validate_fasta (lit ">seq1\nMKV\n>seq2\nMKL\n") (lit "protein")
        = .ok [(lit "seq1", lit "MKV"), (lit "seq2", lit "MKL")] := by
  have htwo : 2 ≤ seqs.length := validate_fasta_ok_two text st seqs h
  have hnil : seqs.map (fun p => p.2.length) ≠ [] := by
    cases hs : seqs with
    | nil => rw [hs] at htwo; cases htwo
    | cons a t => exact fun hx => nomatch hx
  refine ⟨rfl, fun l hl => ⟨listMin_le _ l hl, le_listMax _ l hl⟩,
    listMin_mem _ hnil, listMax_mem _ hnil, ?_, by rfl, by rfl⟩
  have hlen : (seqs.map (fun p => p.2.length)).length = seqs.length := List.length_map _ _
  have hpos : 0 < (seqs.map (fun p => p.2.length)).length := by rw [hlen]; omega
  have hnear := pyRound_nearest (seqs.map (fun p => p.2.length)).sum
    (seqs.map (fun p => p.2.length)).length hpos
  show 2 * Nat.dist (pyRound (seqs.map (fun p => p.2.length)).sum
      (seqs.map (fun p => p.2.length)).length * seqs.length)
      (seqs.map (fun p => p.2.length)).sum ≤ seqs.length
  rw [← hlen]
  exact hnear

/-- Witness for C8: the end-to-end two-sequence scenario. -/
theorem align_stats_spec_witness :
    (buildStats [(lit "seq1", lit "MKV"), (lit "seq2", lit "MKL")] (lit "fasta")
      (lit "protein") (lit "results/result_0a1b2c3d.fasta")).sequences
      = ([(lit "seq1", lit "MKV"), (lit "seq2", lit "MKL")] : List (Str × Str)).length
    ∧ (buildStats [(lit "seq1", lit "MKV"), (lit "seq2", lit "MKL")] (lit "fasta")
        (lit "protein") (lit "results/result_0a1b2c3d.fasta")).min_length
        ∈ ([(lit "seq1", lit "MKV"), (lit "seq2", lit "MKL")] : List (Str × Str)).map
            (fun p => p.2.length) :=
  ⟨(align_stats_spec (lit ">seq1\nMKV\n>seq2\nMKL\n") (lit "protein") (lit "fasta")
      (lit "results/result_0a1b2c3d.fasta") [(lit "seq1", lit "MKV"), (lit "seq2", lit "MKL")]
      rfl).1,
   (align_stats_spec (lit ">seq1\nMKV\n>seq2\nMKL\n") (lit "protein") (lit "fasta")
      (lit "results/result_0a1b2c3d.fasta") [(lit "seq1", lit "MKV"), (lit "seq2", lit "MKL")]
      rfl).2.2.1⟩

-- ── C10: duplicate identifiers ───────────────────────────────────────────────

theorem not_lineBreak_of_not_space (c : Char) (h : pySpace c = false) :
    isLineBreak c = false := by
  cases hlb : isLineBreak c
  · rfl
  · have hsp : pySpace c = true := by
      unfold pySpace
      rw [hlb]
      rfl
    rw [hsp] at h
    cases h

theorem splitlinesGo_append (x rest : Str) :
    ∀ cur, (∀ c ∈ x, isLineBreak c = false) →
      splitlinesGo (x ++ '\n' :: rest) cur false
        = (cur.reverse ++ x) :: splitlinesGo rest [] false := by
  induction x with
  | nil =>
    intro cur hx
    simp [splitlinesGo, isLineBreak]
  | cons c x' ih =>
    intro cur hx
    have hc : isLineBreak c = false := hx c (by simp)
    have hcr : ¬(c = '\r') := by
      intro h
      subst h
      rw [show isLineBreak '\r' = true from by decide] at hc
      cases hc
    simp only [List.cons_append, splitlinesGo]
    rw [if_neg (by simp), if_neg hcr,
      if_neg (show ¬(isLineBreak c = true) from by rw [hc]; exact fun h => nomatch h)]
    have ih' : splitlinesGo (x'.append ('\n' :: rest)) (c :: cur) false
        = ((c :: cur).reverse ++ x') :: splitlinesGo rest [] false :=
      ih (c :: cur) (fun d hd => hx d (by simp [hd]))
    rw [ih']
    simp

theorem splitlines_mkFasta (records : List (Str × Str))
    (h : ∀ p ∈ records,
      (∀ c ∈ p.1, isLineBreak c = false) ∧ (∀ c ∈ p.2, isLineBreak c = false)) :
    splitlines (mkFasta records) = records.flatMap (fun p => ['>' :: p.1, p.2]) := by
  induction records with
  | nil => rfl
  | cons p rest ih =>
    have hp := h p (by simp)
    have hchunk : mkFasta (p :: rest)
        = ('>' :: p.1) ++ '\n' :: (p.2 ++ '\n' :: mkFasta rest) := by
      simp [mkFasta, recordChunk]
    rw [splitlines, hchunk,
      splitlinesGo_append _ _ [] (by
        intro c hc
        rcases List.mem_cons.1 hc with rfl | hc
        · decide
        · exact hp.1 c hc),
      splitlinesGo_append _ _ [] hp.2]
    have ih' : splitlinesGo (mkFasta rest) [] false
        = rest.flatMap (fun p => ['>' :: p.1, p.2]) :=
      ih (fun q hq => h q (by simp [hq]))
    rw [ih']
    simp

theorem collectGo_records (valid : Char → Bool) (label : Str) :
    ∀ (records : List (Str × Str)),
      (∀ p ∈ records, p.1 ≠ [] ∧ (∀ c ∈ p.1, pySpace c = false) ∧ p.2 ≠ [] ∧
        (∀ c ∈ p.2, pySpace c = false ∧ valid c = true) ∧ p.2.head? ≠ some '>') →
      ∀ cid sq seqs, sq ≠ [] →
        collectGo valid label (records.flatMap (fun p => ['>' :: p.1, p.2]))
            (some cid) [sq] seqs
          = .ok (records.foldl (fun d p => dictInsert p.1 p.2 d) (dictInsert cid sq seqs)) := by
  intro records
  induction records with
  | nil =>
    intro h cid sq seqs hsq
    have hj : joinStr [sq] = sq := by simp [joinStr]
    simp only [List.flatMap_nil, collectGo, hj, List.foldl_nil]
    rw [if_neg (show ¬(sq.isEmpty = true) from by
      cases hs : sq with
      | nil => exact absurd hs hsq
      | cons a t => exact fun hh => nomatch hh)]
  | cons p rest ih =>
    intro h cid sq seqs hsq
    obtain ⟨hid_ne, hid_ns, hres_ne, hres_ok, hres_hd⟩ := h p (by simp)
    have hstrip1 : pystrip ('>' :: p.1) = '>' :: p.1 := pystrip_eq_self _ (by
      intro c hc
      rcases List.mem_cons.1 hc with rfl | hc
      · decide
      · exact hid_ns c hc)
    have hstrip2 : pystrip p.1 = p.1 := pystrip_eq_self _ hid_ns
    have hstrip3 : pystrip p.2 = p.2 := pystrip_eq_self _ (fun c hc => (hres_ok c hc).1)
    have hj : joinStr [sq] = sq := by simp [joinStr]
    have hlines : (p :: rest).flatMap (fun q => ['>' :: q.1, q.2])
        = ('>' :: p.1) :: p.2 :: rest.flatMap (fun q => ['>' :: q.1, q.2]) := by simp
    rw [hlines]
    -- the header line closes (cid, sq) and opens p.1
    simp only [collectGo, hstrip1, hj]
    rw [if_neg (show ¬(('>' :: p.1).isEmpty = true) from fun hh => nomatch hh),
      if_pos (show ('>' :: p.1).head? = some '>' from rfl),
      if_neg (show ¬(sq.isEmpty = true) from by
        cases hs : sq with
        | nil => exact absurd hs hsq
        | cons a t => exact fun hh => nomatch hh)]
    have htail : ('>' :: p.1).tail = p.1 := rfl
    rw [htail, hstrip2,
      if_neg (show ¬(p.1.isEmpty = true) from by
        cases hs : p.1 with
        | nil => exact absurd hs hid_ne
        | cons a t => exact fun hh => nomatch hh)]
    -- the residue line appends p.2
    simp only [collectGo, hstrip3]
    rw [if_neg (show ¬(p.2.isEmpty = true) from by
        cases hs : p.2 with
        | nil => exact absurd hs hres_ne
        | cons a t => exact fun hh => nomatch hh),
      if_neg hres_hd]
    have hclean : p.2.filter (fun c => !pySpace c) = p.2 :=
      List.filter_eq_self.2 (fun c hc => by rw [(hres_ok c hc).1]; rfl)
    have hfound : p.2.filter (fun c => !valid c) = [] :=
      List.filter_eq_nil_iff.2 (fun c hc => by rw [(hres_ok c hc).2]; exact fun hh => nomatch hh)
    rw [hclean, hfound]
    rw [if_pos (show (List.isEmpty ([] : Str) = true) from rfl)]
    have hcur : ([] : List Str) ++ [p.2] = [p.2] := rfl
    rw [hcur, ih (fun q hq => h q (by simp [hq])) p.1 p.2 (dictInsert cid sq seqs) hres_ne]
    rw [List.foldl_cons]

theorem foldRecords_pairwise_aux (records : List (Str × Str)) :
    ∀ d, d.Pairwise (fun a b => a.1 ≠ b.1) →
      (records.foldl (fun d p => dictInsert p.1 p.2 d) d).Pairwise (fun a b => a.1 ≠ b.1) := by
  induction records with
  | nil => intro d hd; exact hd
  | cons p rest ih =>
    intro d hd
    rw [List.foldl_cons]
    exact ih _ (dictInsert_pairwise _ _ _ hd)

theorem dictLookup_dictInsert (k i v : Str) (d : List (Str × Str)) :
    dictLookup k (dictInsert i v d) = if i = k then some v else dictLookup k d := by
  induction d with
  | nil => simp [dictInsert, dictLookup]
  | cons p rest ih =>
    rcases p with ⟨k', v'⟩
    by_cases hki : k' = i
    · subst hki
      rw [dictInsert, if_pos rfl]
      by_cases hik : k' = k
      · subst hik
        simp [dictLookup]
      · rw [dictLookup, if_neg hik, if_neg (fun hh => hik hh), dictLookup, if_neg hik]
    · rw [dictInsert, if_neg hki]
      by_cases hik : i = k
      · subst hik
        rw [dictLookup, if_neg (fun hh => hki hh), ih, if_pos rfl, if_pos rfl]
      · by_cases hkk : k' = k
        · subst hkk
          rw [dictLookup, if_pos rfl, if_neg hik, dictLookup, if_pos rfl]
        · rw [dictLookup, if_neg hkk, ih, if_neg hik, if_neg hik, dictLookup, if_neg hkk]

theorem dictLookup_foldRecords (records : List (Str × Str)) :
    ∀ d k, dictLookup k (records.foldl (fun d p => dictInsert p.1 p.2 d) d)
      = match (records.filter (fun q => q.1 = k)).getLast? with
        | some q => some q.2
        | none => dictLookup k d := by
  induction records with
  | nil => intro d k; rfl
  | cons p rest ih =>
    intro d k
    rw [List.foldl_cons, ih]
    by_cases hk : p.1 = k
    · rw [List.filter_cons_of_pos (by simp [hk])]
      cases hl : (rest.filter (fun q => q.1 = k)).getLast? with
      | some q =>
        rw [show ((p :: rest.filter (fun q => q.1 = k)).getLast? = some q) from by
          rw [List.getLast?_cons, hl]; rfl]
      | none =>
        rw [show ((p :: rest.filter (fun q => q.1 = k)).getLast? = some p) from by
          rw [List.getLast?_cons, hl]; rfl]
        rw [dictLookup_dictInsert, if_pos hk]
    · rw [List.filter_cons_of_neg (by simp [hk])]
      cases hl : (rest.filter (fun q => q.1 = k)).getLast? with
      | some q => rfl
      | none => rw [dictLookup_dictInsert, if_neg hk]

/-- C10: `validate_fasta` never fails on a repeated identifier — on a clean
record list the parse succeeds exactly when the dict of records has at least 2
entries, that dict folds the records with replace-on-duplicate semantics (the
lookup of an id is the residue string of its last record), its keys are
pairwise distinct so the record count counts distinct identifiers only, while
the raw FASTA text still contains every record and is exactly what the
invoker writes for the engine. -/
theorem validate_fasta_duplicate_ids (st : Str) (records : List (Str × Str))
    (hrec : ∀ p ∈ records, CleanRecord st p) :
    (validate_fasta (mkFasta records) st =
      if (foldRecords records).length < 2
      then .error (tooFewMsg (foldRecords records).length)
      else .ok (foldRecords records))
    ∧ (foldRecords records).Pairwise (fun a b => a.1 ≠ b.1)
    ∧ (∀ i, dictLookup i (foldRecords records)
        = ((records.filter (fun q => q.1 = i)).getLast?).map (fun q => q.2))
    ∧ (∀ p ∈ records, recordChunk p <:+: mkFasta records)
    ∧ (∀ proc job fmt xo it,
        ((run_clustalo proc job (mkFasta records) fmt st xo it).2).head?
          = some (Event.writeInput (inputPath job) (mkFasta records))) := by
  refine ⟨?_, foldRecords_pairwise_aux records [] List.Pairwise.nil, fun i => ?_, ?_, ?_⟩
  · cases records with
    | nil => rfl
    | cons p rest =>
      have hsplit := splitlines_mkFasta (p :: rest) (fun q hq => by
        obtain ⟨h1, h2, h3, h4, h5⟩ := hrec q hq
        exact ⟨fun c hc => not_lineBreak_of_not_space c (h2 c hc),
          fun c hc => not_lineBreak_of_not_space c ((h4 c hc).1)⟩)
      obtain ⟨hid_ne, hid_ns, hres_ne, hres_ok, hres_hd⟩ := hrec p (by simp)
      have hstrip1 : pystrip ('>' :: p.1) = '>' :: p.1 := pystrip_eq_self _ (by
        intro c hc
        rcases List.mem_cons.1 hc with rfl | hc
        · decide
        · exact hid_ns c hc)
      have hstrip2 : pystrip p.1 = p.1 := pystrip_eq_self _ hid_ns
      have hstrip3 : pystrip p.2 = p.2 := pystrip_eq_self _ (fun c hc => (hres_ok c hc).1)
      have hcol : collectSequences (mkFasta (p :: rest)) st = .ok (foldRecords (p :: rest)) := by
        rw [collectSequences, hsplit]
        have hlines : (p :: rest).flatMap (fun q => ['>' :: q.1, q.2])
            = ('>' :: p.1) :: p.2 :: rest.flatMap (fun q => ['>' :: q.1, q.2]) := by simp
        rw [hlines]
        simp only [collectGo, hstrip1]
        rw [if_neg (show ¬(('>' :: p.1).isEmpty = true) from fun hh => nomatch hh),
          if_pos (show ('>' :: p.1).head? = some '>' from rfl)]
        have htail : ('>' :: p.1).tail = p.1 := rfl
        rw [htail, hstrip2,
          if_neg (show ¬(p.1.isEmpty = true) from by
            cases hs : p.1 with
            | nil => exact absurd hs hid_ne
            | cons a t => exact fun hh => nomatch hh)]
        simp only [collectGo, hstrip3]
        rw [if_neg (show ¬(p.2.isEmpty = true) from by
            cases hs : p.2 with
            | nil => exact absurd hs hres_ne
            | cons a t => exact fun hh => nomatch hh),
          if_neg hres_hd]
        have hclean : p.2.filter (fun c => !pySpace c) = p.2 :=
          List.filter_eq_self.2 (fun c hc => by rw [(hres_ok c hc).1]; rfl)
        have hfound : p.2.filter (fun c => !seqTypeValidChar st c) = [] :=
          List.filter_eq_nil_iff.2
            (fun c hc => by rw [(hres_ok c hc).2]; exact fun hh => nomatch hh)
        rw [hclean, hfound]
        rw [if_pos (show (List.isEmpty ([] : Str) = true) from rfl)]
        have hcur : ([] : List Str) ++ [p.2] = [p.2] := rfl
        rw [hcur,
          collectGo_records (seqTypeValidChar st) (seqTypeLabel st) rest
            (fun q hq => hrec q (by simp [hq])) p.1 p.2 [] hres_ne]
        rfl
      rw [validate_fasta, hcol]
  · rw [show foldRecords records
        = records.foldl (fun d p => dictInsert p.1 p.2 d) [] from rfl,
      dictLookup_foldRecords records [] i]
    cases hl : (records.filter (fun q => q.1 = i)).getLast? with
    | some q => rfl
    | none => rfl
  · intro p hp
    induction records with
    | nil => cases hp
    | cons q rest ih =>
      rcases List.mem_cons.1 hp with rfl | hp'
      · exact ⟨[], mkFasta rest, by simp [mkFasta]⟩
      · obtain ⟨s, t, hst⟩ := ih (fun r hr => hrec r (by simp [hr])) hp'
        exact ⟨recordChunk q ++ s, t, by
          rw [show mkFasta (q :: rest) = recordChunk q ++ mkFasta rest from by
              simp [mkFasta]]
          rw [← hst]
          simp⟩
  · intro proc job fmt xo it
    unfold run_clustalo
    cases hp : parseExtraOpts xo with
    | error e => rfl
    | ok opts =>
      cases proc with
      | timedOut => rfl
      | notFound => rfl
      | completed rc so se outEx outTxt =>
        simp only []
        split_ifs <;> rfl

/-- Witness for C10: three clean protein records where id `a` repeats; the
validator succeeds with 2 entries and keeps the later residues for `a`. -/
theorem validate_fasta_duplicate_ids_witness :
    validate_fasta
        (mkFasta [(lit "a", lit "MKV"), (lit "b", lit "MKL"), (lit "a", lit "MML")])
        (lit "protein")
      = (if (foldRecords [(lit "a", lit "MKV"), (lit "b", lit "MKL"),
              (lit "a", lit "MML")]).length < 2
         then .error (tooFewMsg (foldRecords [(lit "a", lit "MKV"), (lit "b", lit "MKL"),
              (lit "a", lit "MML")]).length)
         else .ok (foldRecords [(lit "a", lit "MKV"), (lit "b", lit "MKL"),
              (lit "a", lit "MML")]))
    ∧ dictLookup (lit "a")
        (foldRecords [(lit "a", lit "MKV"), (lit "b", lit "MKL"), (lit "a", lit "MML")])
      = some (lit "MML") :=
  ⟨(validate_fasta_duplicate_ids (lit "protein")
      [(lit "a", lit "MKV"), (lit "b", lit "MKL"), (lit "a", lit "MML")] (by decide)).1,
   by
    rw [(validate_fasta_duplicate_ids (lit "protein")
      [(lit "a", lit "MKV"), (lit "b", lit "MKL"), (lit "a", lit "MML")] (by decide)).2.2.1
      (lit "a")]
    rfl⟩

end ClustalApp
